import Mathlib

/-!
# Verification of the Stream-Deck-Gemini-Live streaming pipeline

A shallow embedding of the core logic of the Stream-Deck-Gemini-Live web
application, together with proofs about it:

* the image packetizer of `StreamDeckManager.generateImagePackets` /
  `StreamDeckV2.getPacketsFromBuffer`;
* the input-report decoders `StreamDeckManager.handleInputReport` and
  `StreamDeckV2.#onButtonPushed`;
* the serialized outbound send queue `StreamDeckV2.#addPacketsToSendQueue`;
* the audio streaming gate, PCM conversion, and the playback scheduling
  cursor of `AudioManager` / `audio-processor.js`;
* the recording-mode coordinator `handleButtonPress` and the session
  `close` listener of the application layer;
* the connection guard `StreamDeckV2.#readyOrThrow`.

JavaScript numbers are modelled as `Nat` / `Int` / `ℚ`; byte buffers as
`List Nat`; event emission as returned lists of events.
-/

namespace StreamDeckGemini

/-! ## Image packets

`StreamDeckManager.generateImagePackets(keyIndex, buffer)` splits a JPEG
buffer into fixed-size packets with an 8-byte header.  The 8-byte header
fields are modelled as record fields:

```
dv.setUint8(0, 0x02); // Report ID
dv.setUint8(1, 0x07); // Command: Set Icon
dv.setUint8(2, keyIndex);
dv.setUint8(3, isLastPacket ? 1 : 0);
dv.setUint16(4, byteCount, true);
dv.setUint16(6, page++, true);
```

`StreamDeckV2.getPacketsFromBuffer` is the same algorithm (the V2 library
uses `PACKET_SIZE = 1024`, header length 8, hence payload capacity 1016;
`src/managers/StreamDeckManager.js` uses the same constants and an
alternate revision uses 1023/8/1015, so the capacity is a parameter). -/
structure ImagePacket where
  reportId : Nat
  command : Nat
  keyIndex : Nat
  isLastPacket : Bool
  byteCount : Nat
  pageIndex : Nat
  payload : List Nat
  deriving DecidableEq

/-- The packet payload capacity `MAX_PAYLOAD_LENGTH = PACKET_SIZE - PACKET_HEADER_LENGTH`
for `PACKET_SIZE = 1024`, `PACKET_HEADER_LENGTH = 8`. -/
def MAX_PAYLOAD_LENGTH : Nat := 1024 - 8

/-- The body of the `while (bytesRemaining > 0)` loop of
`generateImagePackets` / `getPacketsFromBuffer`.  `fuel` bounds the number
of iterations; each iteration with a positive payload capacity consumes at
least one byte of the buffer, so `fuel = buffer.length` iterations always
suffice and the fuel never runs out on the loop's own inputs (with
capacity 0 the JavaScript loop would not terminate at all). -/
def generateImagePacketsGo (maxPayload keyIdx : Nat) :
    Nat → Nat → List Nat → List ImagePacket
  | 0, _, _ => []
  | _, _, [] => []
  | fuel + 1, page, buffer =>
    let byteCount := min buffer.length maxPayload
    let isLastPacket := decide (buffer.length ≤ maxPayload)
    { reportId := 0x02
      command := 0x07
      keyIndex := keyIdx
      isLastPacket := isLastPacket
      byteCount := byteCount
      pageIndex := page
      payload := buffer.take byteCount } ::
      generateImagePacketsGo maxPayload keyIdx fuel (page + 1) (buffer.drop byteCount)

/-- `StreamDeckManager.generateImagePackets` / `StreamDeckV2.getPacketsFromBuffer`,
parameterized over the payload capacity `maxPayload`. -/
def generateImagePackets (maxPayload keyIdx : Nat) (buffer : List Nat) :
    List ImagePacket :=
  generateImagePacketsGo maxPayload keyIdx buffer.length 0 buffer

/-- The number of packets a transfer of `S` bytes produces: `ceil(S / P)`. -/
def numPackets (maxPayload S : Nat) : Nat := (S + maxPayload - 1) / maxPayload

lemma numPackets_of_le {P L : Nat} (h1 : 1 ≤ L) (h2 : L ≤ P) :
    numPackets P L = 1 := by
  unfold numPackets
  refine Nat.div_eq_of_lt_le (by omega) (by omega)

lemma numPackets_of_gt {P L : Nat} (hP : 0 < P) (h : P < L) :
    numPackets P L = numPackets P (L - P) + 1 := by
  unfold numPackets
  have h1 : L + P - 1 = (L - P + P - 1) + P := by omega
  rw [h1, Nat.add_div_right _ hP]

lemma numPackets_pos {P L : Nat} (hP : 0 < P) (hL : 0 < L) :
    0 < numPackets P L := by
  unfold numPackets
  exact (Nat.le_div_iff_mul_le hP).mpr (by omega)

/-- Full characterization of the packetizer loop: packet count, page indices,
header flags and byte counts, for a positive payload capacity and a nonempty
buffer, with enough fuel. -/
lemma generateImagePacketsGo_spec (maxPayload keyIdx : Nat) (hP : 0 < maxPayload) :
    ∀ (fuel page : Nat) (buffer : List Nat), buffer ≠ [] → buffer.length ≤ fuel →
      (generateImagePacketsGo maxPayload keyIdx fuel page buffer).length
          = numPackets maxPayload buffer.length
      ∧ (generateImagePacketsGo maxPayload keyIdx fuel page buffer).map (·.pageIndex)
          = (List.range (numPackets maxPayload buffer.length)).map (page + ·)
      ∧ (∀ p ∈ (generateImagePacketsGo maxPayload keyIdx fuel page buffer).dropLast,
          p.isLastPacket = false ∧ p.byteCount = maxPayload)
      ∧ (∀ p, (generateImagePacketsGo maxPayload keyIdx fuel page buffer).getLast? = some p →
          p.isLastPacket = true
          ∧ p.byteCount
              = buffer.length - maxPayload * (numPackets maxPayload buffer.length - 1))
      ∧ (∀ p ∈ generateImagePacketsGo maxPayload keyIdx fuel page buffer,
          p.byteCount ≤ maxPayload ∧ p.reportId = 2 ∧ p.command = 7 ∧ p.keyIndex = keyIdx)
      ∧ ((generateImagePacketsGo maxPayload keyIdx fuel page buffer).filter
           (·.isLastPacket)).length = 1 := by
  intro fuel
  induction fuel with
  | zero =>
    intro page buffer hne hlen
    exact absurd (List.length_eq_zero.mp (Nat.le_zero.mp hlen)) hne
  | succ fuel ih =>
    intro page buffer hne hlen
    obtain ⟨b, bs, rfl⟩ := List.exists_cons_of_ne_nil hne
    by_cases hle : (b :: bs).length ≤ maxPayload
    · -- final iteration: the whole remaining buffer fits in one packet
      have hmin : min (b :: bs).length maxPayload = (b :: bs).length :=
        Nat.min_eq_left hle
      have hN : numPackets maxPayload (b :: bs).length = 1 :=
        numPackets_of_le (by simp) hle
      have hgo : ∀ f p, generateImagePacketsGo maxPayload keyIdx f p ([] : List Nat) = [] := by
        intro f p; cases f <;> simp [generateImagePacketsGo]
      simp only [generateImagePacketsGo, hmin, List.drop_length, hgo]
      simp only [List.length_cons] at hN hle
      refine ⟨by simp [hN], by simp [hN, List.range_succ, List.range_zero], by simp,
        ?_, ?_, by simp [hle]⟩
      · intro p hp
        simp only [List.getLast?_singleton, Option.some.injEq] at hp
        subst hp
        simp [hle, hN]
      · intro p hp
        simp only [List.mem_singleton] at hp
        subst hp
        simp [hle]
    · -- a full packet of maxPayload bytes, then the loop continues
      push_neg at hle
      have hmin : min (b :: bs).length maxPayload = maxPayload :=
        Nat.min_eq_right (Nat.le_of_lt hle)
      have hrest : ((b :: bs).drop maxPayload).length = (b :: bs).length - maxPayload := by
        simp
      have hrne : (b :: bs).drop maxPayload ≠ [] := by
        rw [← List.length_pos_iff_ne_nil, hrest]; omega
      have hrlen : ((b :: bs).drop maxPayload).length ≤ fuel := by
        rw [hrest]; omega
      obtain ⟨ihlen, ihmap, ihdrop, ihlast, ihmem, ihfilter⟩ :=
        ih (page + 1) ((b :: bs).drop maxPayload) hrne hrlen
      rw [hrest] at ihlen ihmap ihlast
      have hN : numPackets maxPayload (b :: bs).length
          = numPackets maxPayload ((b :: bs).length - maxPayload) + 1 :=
        numPackets_of_gt hP hle
      have hN'pos : 0 < numPackets maxPayload ((b :: bs).length - maxPayload) :=
        numPackets_pos hP (by omega)
      have hlast_false : decide ((b :: bs).length ≤ maxPayload) = false := by
        rw [decide_eq_false_iff_not]
        exact Nat.not_le_of_lt hle
      have hne' : generateImagePacketsGo maxPayload keyIdx fuel (page + 1)
          ((b :: bs).drop maxPayload) ≠ [] := by
        rw [← List.length_pos_iff_ne_nil, ihlen]; omega
      simp only [generateImagePacketsGo, hmin, hlast_false]
      simp only [List.length_cons] at ihlen ihmap ihlast hN hN'pos hle ⊢
      refine ⟨by simp [ihlen, hN], ?_, ?_, ?_, ?_, ?_⟩
      · -- page indices
        simp only [List.map_cons, ihmap, hN]
        rw [List.range_succ_eq_map]
        simp only [List.map_cons, List.map_map, Nat.add_zero]
        refine congrArg (page :: ·) (List.map_congr_left ?_)
        intro a _
        simp [Function.comp]
        omega
      · -- all but the last packet: not last, full payload
        intro p hp
        obtain ⟨q, qs, hq⟩ := List.exists_cons_of_ne_nil hne'
        rw [hq] at hp
        simp only [List.dropLast_cons₂, List.mem_cons] at hp
        rcases hp with rfl | hp
        · exact ⟨by simp, rfl⟩
        · exact ihdrop p (by rw [hq]; simpa using hp)
      · -- the last packet
        intro p hp
        obtain ⟨q, qs, hq⟩ := List.exists_cons_of_ne_nil hne'
        rw [hq] at hp
        rw [List.getLast?_cons_cons] at hp
        obtain ⟨h1, h2⟩ := ihlast p (by rw [hq]; exact hp)
        refine ⟨h1, ?_⟩
        rw [h2, hN]
        obtain ⟨m, hm⟩ : ∃ m, numPackets maxPayload (bs.length + 1 - maxPayload) = m + 1 :=
          ⟨_, (Nat.succ_pred_eq_of_pos hN'pos).symm⟩
        rw [hm]
        simp only [Nat.add_sub_cancel, Nat.mul_succ]
        generalize maxPayload * m = t
        omega
      · -- byte count bound and fixed header bytes
        intro p hp
        simp only [List.mem_cons] at hp
        rcases hp with rfl | hp
        · exact ⟨Nat.le_refl _, rfl, rfl, rfl⟩
        · exact ihmem p hp
      · -- exactly one last packet
        simp [List.filter_cons, ihfilter]

/-- C1 (amended: encoded buffer of byte-length S ≥ 1).  For every image transfer
of an encoded buffer of byte-length `S ≥ 1` with per-packet payload capacity
`P > 0`, `generateImagePackets` produces exactly `ceil(S/P)` packets; every
packet except the last has `isLastPacket = false` and `byteCount = P`; the last
packet has `isLastPacket = true` and `byteCount = S - P*(N-1)`; the page indices
are exactly `0..N-1` in increasing order; exactly one packet has
`isLastPacket = true`; and no packet's `byteCount` exceeds `P`.  (At `S = 0` the
loop produces zero packets, so the "exactly one last packet" conjunct fails;
see the counterexample.) -/
theorem C1_image_packets_spec (maxPayload keyIdx : Nat) (buffer : List Nat)
    (hP : 0 < maxPayload) (hS : buffer ≠ []) :
    (generateImagePackets maxPayload keyIdx buffer).length
        = numPackets maxPayload buffer.length
    ∧ (generateImagePackets maxPayload keyIdx buffer).map (·.pageIndex)
        = List.range (numPackets maxPayload buffer.length)
    ∧ (∀ p ∈ (generateImagePackets maxPayload keyIdx buffer).dropLast,
        p.isLastPacket = false ∧ p.byteCount = maxPayload)
    ∧ (∀ p, (generateImagePackets maxPayload keyIdx buffer).getLast? = some p →
        p.isLastPacket = true ∧
        p.byteCount = buffer.length - maxPayload * (numPackets maxPayload buffer.length - 1))
    ∧ ((generateImagePackets maxPayload keyIdx buffer).filter (·.isLastPacket)).length = 1
    ∧ (∀ p ∈ generateImagePackets maxPayload keyIdx buffer, p.byteCount ≤ maxPayload) := by
  obtain ⟨h1, h2, h3, h4, h5, h6⟩ :=
    generateImagePacketsGo_spec maxPayload keyIdx hP buffer.length 0 buffer hS (Nat.le_refl _)
  refine ⟨h1, ?_, h3, h4, h6, fun p hp => (h5 p hp).1⟩
  rw [show generateImagePackets maxPayload keyIdx buffer
      = generateImagePacketsGo maxPayload keyIdx buffer.length 0 buffer from rfl, h2]
  simp

/-- C1 counterexample at `S = 0`: an empty encoded buffer produces zero packets,
so no packet of the transfer has `isLastPacket = true`, refuting the claim's
"exactly one packet in the transfer has isLastPacket=true" for `S = 0`. -/
theorem C1_empty_buffer_counterexample :
    ¬ ((generateImagePackets 1016 0 []).filter (·.isLastPacket)).length = 1 := by
  decide

/-- Witness for C1 at a concrete input: capacity 3, key 5, a 7-byte buffer
(3 packets). -/
theorem C1_image_packets_spec_witness :
    0 < 3 ∧ ([1, 2, 3, 4, 5, 6, 7] : List Nat) ≠ []
    ∧ (generateImagePackets 3 5 [1, 2, 3, 4, 5, 6, 7]).length = numPackets 3 7 := by
  refine ⟨by decide, by decide, ?_⟩
  have h := C1_image_packets_spec 3 5 [1, 2, 3, 4, 5, 6, 7] (by decide) (by decide)
  simpa using h.1

/-! ## Input-report decoding

`StreamDeckManager.handleInputReport(event)` reads one status byte per key at
offset `OFFSET + i` of the report data, compares `data.getUint8(OFFSET+i) === 1`
with the stored `keyState[i]`, and on a change stores the new value and
dispatches a `keydown`/`keyup` event carrying the key index. -/

/-- `OFFSET = 4`: byte offset of the first key status in an input report. -/
def OFFSET : Nat := 4

/-- `NUM_KEYS = 15`. -/
def NUM_KEYS : Nat := 15

/-- A `keydown`/`keyup` `CustomEvent` with its key index, as dispatched by the
drivers (`pressed = true` for `keydown`). -/
structure KeyEdgeEvent where
  keyIndex : Nat
  pressed : Bool
  deriving DecidableEq

/-- The decoded status of key `i` in a report:
`const isPressed = data.getUint8(this.OFFSET + i) === 1`. -/
def decodeKey (report : List Nat) (i : Nat) : Bool :=
  report.getD (OFFSET + i) 0 == 1

/-- The `for (let i ...)` loop body of `handleInputReport`, iterating over the
key indices `is`, threading the mutable `keyState` array and collecting the
dispatched events in order. -/
def handleKeysGo (report : List Nat) : List Nat → List Bool → List Bool × List KeyEdgeEvent
  | [], st => (st, [])
  | i :: rest, st =>
    if decodeKey report i = st.getD i false then
      handleKeysGo report rest st
    else
      let r := handleKeysGo report rest (st.set i (decodeKey report i))
      (r.1, ⟨i, decodeKey report i⟩ :: r.2)

/-- `StreamDeckManager.handleInputReport`: returns the updated `keyState` and
the list of dispatched events.  Reports shorter than `OFFSET + NUM_KEYS` bytes
are ignored. -/
def handleInputReport (st : List Bool) (report : List Nat) :
    List Bool × List KeyEdgeEvent :=
  if report.length < OFFSET + NUM_KEYS then (st, [])
  else handleKeysGo report (List.range NUM_KEYS) st

lemma getD_set_ne (l : List Bool) (i j : Nat) (b : Bool) (h : i ≠ j) :
    (l.set i b).getD j false = l.getD j false := by
  simp [List.getD_eq_getElem?_getD, List.getElem?_set_ne h]

lemma getD_set_self (l : List Bool) (i : Nat) (b : Bool) (h : i < l.length) :
    (l.set i b).getD i false = b := by
  simp [List.getD_eq_getElem?_getD, List.getElem?_set_self, h]

lemma filterMap_ext {α β : Type} (l : List α) (f g : α → Option β)
    (h : ∀ x ∈ l, f x = g x) : l.filterMap f = l.filterMap g := by
  induction l with
  | nil => rfl
  | cons a l ih =>
    simp only [List.filterMap_cons, h a (List.mem_cons_self a l)]
    rw [ih fun x hx => h x (List.mem_cons_of_mem a hx)]

/-- Characterization of the diffing loop: the events are exactly the changed
indices (against the state at entry, since indices are distinct), in iteration
order; the final state holds the decoded report at the visited indices and is
untouched elsewhere; the state length is preserved. -/
lemma handleKeysGo_spec (report : List Nat) :
    ∀ (is : List Nat) (st : List Bool), is.Nodup → (∀ i ∈ is, i < st.length) →
      (handleKeysGo report is st).2
          = is.filterMap (fun i =>
              if decodeKey report i = st.getD i false then none
              else some ⟨i, decodeKey report i⟩)
      ∧ (∀ j, (handleKeysGo report is st).1.getD j false
          = if j ∈ is then decodeKey report j else st.getD j false)
      ∧ (handleKeysGo report is st).1.length = st.length := by
  intro is
  induction is with
  | nil => intro st _ _; simp [handleKeysGo]
  | cons i rest ih =>
    intro st hnd hlt
    have hi : i ∉ rest := (List.nodup_cons.mp hnd).1
    have hnd' : rest.Nodup := (List.nodup_cons.mp hnd).2
    have hilt : i < st.length := hlt i (List.mem_cons_self i rest)
    by_cases hch : decodeKey report i = st.getD i false
    · -- unchanged: no event, no write
      have hrec := ih st hnd' fun j hj => hlt j (List.mem_cons_of_mem i hj)
      have hunfold : handleKeysGo report (i :: rest) st = handleKeysGo report rest st := by
        simp only [handleKeysGo]
        rw [if_pos hch]
      rw [hunfold]
      refine ⟨?_, ?_, hrec.2.2⟩
      · rw [hrec.1, List.filterMap_cons]
        simp [hch]
      · intro j
        rw [hrec.2.1 j]
        by_cases hji : j = i
        · subst hji
          rw [if_neg hi, if_pos (List.mem_cons_self j rest)]
          exact hch.symm
        · by_cases hjr : j ∈ rest
          · rw [if_pos hjr, if_pos (List.mem_cons_of_mem i hjr)]
          · rw [if_neg hjr, if_neg (by simp [hji, hjr])]
    · -- changed: write the new value, emit one event, recurse on the updated state
      have hlt' : ∀ j ∈ rest, j < (st.set i (decodeKey report i)).length := by
        intro j hj
        rw [List.length_set]
        exact hlt j (List.mem_cons_of_mem i hj)
      have hrec := ih (st.set i (decodeKey report i)) hnd' hlt'
      have hunfold : handleKeysGo report (i :: rest) st
          = ((handleKeysGo report rest (st.set i (decodeKey report i))).1,
             ⟨i, decodeKey report i⟩ ::
               (handleKeysGo report rest (st.set i (decodeKey report i))).2) := by
        simp only [handleKeysGo]
        rw [if_neg hch]
      rw [hunfold]
      refine ⟨?_, ?_, by rw [hrec.2.2, List.length_set]⟩
      · simp only [List.filterMap_cons, if_neg hch]
        rw [hrec.1]
        refine congrArg _ (filterMap_ext _ _ _ ?_)
        intro j hj
        have hji : i ≠ j := fun h => hi (h ▸ hj)
        rw [getD_set_ne st i j _ hji]
      · intro j
        rw [hrec.2.1 j]
        by_cases hji : j = i
        · subst hji
          rw [if_neg hi, if_pos (List.mem_cons_self j rest),
            getD_set_self st j _ hilt]
        · by_cases hjr : j ∈ rest
          · rw [if_pos hjr, if_pos (List.mem_cons_of_mem i hjr)]
          · rw [if_neg hjr, if_neg (by simp [hji, hjr]),
              getD_set_ne st i j _ fun h => hji h.symm]

lemma ite_none_flip {β : Type} (a b : Bool) (c : β) :
    (if a = b then none else some c) = (if a != b then some c else none) := by
  cases a <;> cases b <;> simp

lemma filterMap_ite_eq_filter_map {α β : Type} (l : List α) (p : α → Bool) (g : α → β) :
    l.filterMap (fun x => if p x then some (g x) else none) = (l.filter p).map g := by
  induction l with
  | nil => rfl
  | cons a l ih =>
    rw [List.filterMap_cons, List.filter_cons]
    cases h : p a <;> simp [h, ih]

/-- C2: processing a well-formed input report emits exactly one `KeyEdgeEvent`
per key index whose decoded status differs from the stored state — with the
decoded status as its `pressed` value — in ascending key-index order, no event
for unchanged indices, and processing the same report again immediately
afterwards emits nothing (idempotence). -/
theorem C2_input_report_diffing (st : List Bool) (report : List Nat)
    (hst : st.length = NUM_KEYS) (hr : OFFSET + NUM_KEYS ≤ report.length) :
    (handleInputReport st report).2
        = ((List.range NUM_KEYS).filter
            (fun i => decodeKey report i != st.getD i false)).map
            (fun i => ⟨i, decodeKey report i⟩)
    ∧ ((handleInputReport st report).2).Pairwise (fun a b => a.keyIndex < b.keyIndex)
    ∧ (∀ i, i < NUM_KEYS → decodeKey report i ≠ st.getD i false →
        (((handleInputReport st report).2).filter (fun e => e.keyIndex == i)).length = 1)
    ∧ (∀ i, decodeKey report i = st.getD i false →
        (((handleInputReport st report).2).filter (fun e => e.keyIndex == i)).length = 0)
    ∧ (∀ e ∈ (handleInputReport st report).2, e.pressed = decodeKey report e.keyIndex)
    ∧ (handleInputReport (handleInputReport st report).1 report).2 = [] := by
  have hguard : ¬ report.length < OFFSET + NUM_KEYS := Nat.not_lt_of_le hr
  have hlt : ∀ i ∈ List.range NUM_KEYS, i < st.length := by
    intro i hi
    rw [hst]
    exact List.mem_range.mp hi
  obtain ⟨hev, hstD, hlen⟩ :=
    handleKeysGo_spec report (List.range NUM_KEYS) st (List.nodup_range _) hlt
  have hrun : handleInputReport st report = handleKeysGo report (List.range NUM_KEYS) st := by
    rw [handleInputReport, if_neg hguard]
  have hev' : (handleInputReport st report).2
      = ((List.range NUM_KEYS).filter
          (fun i => decodeKey report i != st.getD i false)).map
          (fun i => ⟨i, decodeKey report i⟩) := by
    rw [hrun, hev, ← filterMap_ite_eq_filter_map]
    exact filterMap_ext _ _ _ fun i _ => ite_none_flip _ _ _
  have hfilter_eq : ∀ i : Nat,
      ((handleInputReport st report).2).filter (fun e => e.keyIndex == i)
        = (((List.range NUM_KEYS).filter
            (fun i => decodeKey report i != st.getD i false)).filter
              (fun j => j == i)).map (fun i => ⟨i, decodeKey report i⟩) := by
    intro i
    rw [hev', List.filter_map]
    rfl
  have hnodup : ((List.range NUM_KEYS).filter
      (fun i => decodeKey report i != st.getD i false)).Nodup :=
    (List.nodup_range _).filter _
  refine ⟨hev', ?_, ?_, ?_, ?_, ?_⟩
  · rw [hev', List.pairwise_map]
    exact List.Pairwise.filter _ (List.pairwise_lt_range _)
  · intro i hiN hich
    rw [hfilter_eq i, List.length_map, ← List.countP_eq_length_filter]
    have hmem : i ∈ (List.range NUM_KEYS).filter
        (fun i => decodeKey report i != st.getD i false) := by
      rw [List.mem_filter, List.mem_range]
      exact ⟨hiN, bne_iff_ne.mpr hich⟩
    exact List.count_eq_one_of_mem hnodup hmem
  · intro i hich
    rw [hfilter_eq i, List.length_map, ← List.countP_eq_length_filter]
    refine List.count_eq_zero.mpr ?_
    rw [List.mem_filter]
    rintro ⟨-, habs⟩
    exact (bne_iff_ne.mp habs) hich
  · intro e he
    rw [hev'] at he
    obtain ⟨i, -, rfl⟩ := List.mem_map.mp he
    rfl
  · have hlt2 : ∀ i ∈ List.range NUM_KEYS, i < (handleInputReport st report).1.length := by
      intro i hi
      rw [hrun, hlen, hst]
      exact List.mem_range.mp hi
    obtain ⟨hev2, -, -⟩ :=
      handleKeysGo_spec report (List.range NUM_KEYS) (handleInputReport st report).1
        (List.nodup_range _) hlt2
    have hrun2 : handleInputReport (handleInputReport st report).1 report
        = handleKeysGo report (List.range NUM_KEYS) (handleInputReport st report).1 := by
      rw [handleInputReport, if_neg hguard]
    rw [hrun2, hev2]
    have hnone : ∀ i ∈ List.range NUM_KEYS,
        (if decodeKey report i = (handleInputReport st report).1.getD i false then none
         else some (⟨i, decodeKey report i⟩ : KeyEdgeEvent)) = none := by
      intro i hi
      rw [hrun, hstD i, if_pos hi, if_pos rfl]
    rw [filterMap_ext _ _ _ hnone]
    simp

/-- Witness for C2 at a concrete input: all keys initially released, a 19-byte
report with keys 0 and 2 pressed. -/
theorem C2_input_report_diffing_witness :
    (List.replicate 15 false).length = NUM_KEYS
    ∧ OFFSET + NUM_KEYS
        ≤ ([0, 0, 0, 0, 1, 0, 1, 0, 0, 0, 0, 0, 0, 0, 0, 0, 0, 0, 0] : List Nat).length
    ∧ (handleInputReport (List.replicate 15 false)
          [0, 0, 0, 0, 1, 0, 1, 0, 0, 0, 0, 0, 0, 0, 0, 0, 0, 0, 0]).2
        = ((List.range NUM_KEYS).filter
            (fun i => decodeKey [0, 0, 0, 0, 1, 0, 1, 0, 0, 0, 0, 0, 0, 0, 0, 0, 0, 0, 0] i
              != (List.replicate 15 false).getD i false)).map
            (fun i => ⟨i, decodeKey [0, 0, 0, 0, 1, 0, 1, 0, 0, 0, 0, 0, 0, 0, 0, 0, 0, 0, 0] i⟩) := by
  refine ⟨by decide, by decide, ?_⟩
  exact (C2_input_report_diffing (List.replicate 15 false)
    [0, 0, 0, 0, 1, 0, 1, 0, 0, 0, 0, 0, 0, 0, 0, 0, 0, 0, 0] (by decide) (by decide)).1

/-! ## The serialized outbound send queue

`StreamDeckV2.#addPacketsToSendQueue(packets)` pushes the packet array of one
image transfer onto `#commandQueue` and, unless a drain loop is already running
(`#isQueueRunning`), starts the single drain loop, which repeatedly shifts the
front entry and writes its packets to the device in order with `await
sendReport` between packets.  Under the browser's single cooperative event
loop, the `#isQueueRunning` flag guarantees at most one drain loop, so a run of
the system is a sequence of atomic steps: an `enqueue` (the push) or a
`drainStep` (the drain loop writing the next packet after an `await`). -/

/-- The queue-and-device state: the pending `#commandQueue` entries (front
entry partially consumed) and the sequence of packets already written via
`device.sendReport`, in write order. -/
structure SendQueueState where
  queue : List (List ImagePacket)
  written : List ImagePacket
  deriving DecidableEq

/-- An atomic step of the send-queue system. -/
inductive QueueOp where
  | enqueue (packets : List ImagePacket)
  | drainStep
  deriving DecidableEq

/-- One step: `enqueue` appends a transfer's packets at the back of
`#commandQueue`; `drainStep` writes the next packet of the front entry to the
device (dropping exhausted entries, idle if the queue is empty). -/
def queueStep (s : SendQueueState) : QueueOp → SendQueueState
  | .enqueue ps => { s with queue := s.queue ++ [ps] }
  | .drainStep =>
    match s.queue with
    | [] => s
    | [] :: rest => { s with queue := rest }
    | (p :: ps) :: rest => { queue := ps :: rest, written := s.written ++ [p] }

/-- Run a sequence of steps. -/
def queueRun (s : SendQueueState) : List QueueOp → SendQueueState
  | [] => s
  | op :: ops => queueRun (queueStep s op) ops

/-- The transfers enqueued by a step sequence, in order. -/
def enqueuedTransfers (ops : List QueueOp) : List (List ImagePacket) :=
  ops.filterMap fun op =>
    match op with
    | .enqueue ps => some ps
    | .drainStep => none

/-- Invariant of the send queue: the written prefix followed by the pending
packets always equals the previously pending packets plus everything enqueued,
in arrival order.  In particular writes never reorder or interleave entries. -/
lemma queueRun_invariant (ops : List QueueOp) :
    ∀ s : SendQueueState,
      (queueRun s ops).written ++ (queueRun s ops).queue.flatten
        = s.written ++ s.queue.flatten ++ (enqueuedTransfers ops).flatten := by
  induction ops with
  | nil => intro s; simp [queueRun, enqueuedTransfers]
  | cons op ops ih =>
    intro s
    rw [queueRun, ih (queueStep s op)]
    cases op with
    | enqueue ps => simp [queueStep, enqueuedTransfers, List.filterMap_cons]
    | drainStep =>
      have hq : (queueStep s .drainStep).written ++ (queueStep s .drainStep).queue.flatten
          = s.written ++ s.queue.flatten := by
        rcases s with ⟨queue, written⟩
        match queue with
        | [] => rfl
        | [] :: rest => simp [queueStep]
        | (p :: ps) :: rest => simp [queueStep]
      rw [hq]
      simp [enqueuedTransfers, List.filterMap_cons]

/-- C3: under the cooperative event loop (`#isQueueRunning` guarantees a single
drain loop), for two image-transfer requests enqueued while an earlier transfer
may still be draining, every interleaving of drain steps writes all packets of
the first transfer before any packet of the second, and each transfer's packets
go out in strictly increasing page order — no interleaving is possible. -/
theorem C3_send_queue_serialization (maxPayload k1 k2 : Nat)
    (b1 b2 : List Nat) (ops : List QueueOp)
    (hP : 0 < maxPayload) (hb1 : b1 ≠ []) (hb2 : b2 ≠ [])
    (henq : enqueuedTransfers ops
        = [generateImagePackets maxPayload k1 b1, generateImagePackets maxPayload k2 b2])
    (hdrained : (queueRun ⟨[], []⟩ ops).queue = []) :
    (queueRun ⟨[], []⟩ ops).written
        = generateImagePackets maxPayload k1 b1 ++ generateImagePackets maxPayload k2 b2
    ∧ ((generateImagePackets maxPayload k1 b1).map (·.pageIndex)).Pairwise (· < ·)
    ∧ ((generateImagePackets maxPayload k2 b2).map (·.pageIndex)).Pairwise (· < ·) := by
  have hpages : ∀ k : Nat, ∀ b : List Nat, b ≠ [] →
      ((generateImagePackets maxPayload k b).map (·.pageIndex)).Pairwise (· < ·) := by
    intro k b hb
    obtain ⟨-, hmap, -, -, -, -⟩ :=
      generateImagePacketsGo_spec maxPayload k hP b.length 0 b hb (Nat.le_refl _)
    rw [show generateImagePackets maxPayload k b
        = generateImagePacketsGo maxPayload k b.length 0 b from rfl, hmap,
      List.pairwise_map]
    refine (List.pairwise_lt_range _).imp ?_
    intro a b hab
    omega
  have hinv := queueRun_invariant ops ⟨[], []⟩
  rw [hdrained, henq] at hinv
  simp only [List.flatten_nil, List.append_nil, List.nil_append] at hinv
  refine ⟨?_, hpages k1 b1 hb1, hpages k2 b2 hb2⟩
  rw [hinv]
  simp

/-- Witness for C3 at a concrete interleaving: transfer 1 (key 0, 1 byte) is
enqueued and half-drained, transfer 2 (key 1, 2 bytes) is enqueued while the
first is still in the queue, then everything drains. -/
theorem C3_send_queue_serialization_witness :
    0 < 1016
    ∧ ([7] : List Nat) ≠ []
    ∧ ([8, 9] : List Nat) ≠ []
    ∧ enqueuedTransfers
        [QueueOp.enqueue (generateImagePackets 1016 0 [7]), QueueOp.drainStep,
         QueueOp.enqueue (generateImagePackets 1016 1 [8, 9]), QueueOp.drainStep,
         QueueOp.drainStep, QueueOp.drainStep]
        = [generateImagePackets 1016 0 [7], generateImagePackets 1016 1 [8, 9]]
    ∧ (queueRun ⟨[], []⟩
        [QueueOp.enqueue (generateImagePackets 1016 0 [7]), QueueOp.drainStep,
         QueueOp.enqueue (generateImagePackets 1016 1 [8, 9]), QueueOp.drainStep,
         QueueOp.drainStep, QueueOp.drainStep]).queue = []
    ∧ (queueRun ⟨[], []⟩
        [QueueOp.enqueue (generateImagePackets 1016 0 [7]), QueueOp.drainStep,
         QueueOp.enqueue (generateImagePackets 1016 1 [8, 9]), QueueOp.drainStep,
         QueueOp.drainStep, QueueOp.drainStep]).written
        = generateImagePackets 1016 0 [7] ++ generateImagePackets 1016 1 [8, 9] := by
  refine ⟨by decide, by decide, by decide, by decide, by decide, ?_⟩
  exact (C3_send_queue_serialization 1016 0 1 [7] [8, 9] _
    (by decide) (by decide) (by decide) (by decide) (by decide)).1

/-! ## The audio streaming gate

`AudioManager` forwards completed capture frames from the worklet port only
while `isStreaming` is true:

```
this.workletNode.port.onmessage = (event) => {
    if (!this.isStreaming) return;
    this.dispatchEvent(new CustomEvent('audioinput', { detail: event.data }));
};
```

`startStreaming()` sets `isStreaming = true`, `stopStreaming()` sets it to
false.  Frames are never queued: a frame arriving while the flag is false is
dropped at that moment and can never be emitted later. -/

/-- The happenings that touch the streaming gate, in event-loop order: a
completed capture frame arriving on the worklet port (with its PCM payload),
`startStreaming()`, or `stopStreaming()`. -/
inductive AudioEvent where
  | frame (data : List Int)
  | start
  | stop
  deriving DecidableEq

/-- One step of `AudioManager`: given the current `isStreaming` flag, return
the new flag and the `audioinput` events dispatched by this happening. -/
def audioStep (isStreaming : Bool) : AudioEvent → Bool × List (List Int)
  | .frame d => (isStreaming, if isStreaming then [d] else [])
  | .start => (true, [])
  | .stop => (false, [])

/-- The `audioinput` payloads dispatched over a whole sequence of happenings. -/
def audioRun : Bool → List AudioEvent → List (List Int)
  | _, [] => []
  | s, e :: rest => (audioStep s e).2 ++ audioRun (audioStep s e).1 rest

/-- Spec-side view: the value of the streaming flag as each happening occurs
(`scanl` of the flag updates, so entry `i` is the flag right before event `i`). -/
def streamingFlagTrace (init : Bool) (evs : List AudioEvent) : List Bool :=
  evs.scanl (fun s e => (audioStep s e).1) init

/-- Spec-side view: the frames completed while the flag was true. -/
def framesWhileStreaming (init : Bool) (evs : List AudioEvent) : List (List Int) :=
  ((streamingFlagTrace init evs).zip evs).filterMap fun fe =>
    match fe with
    | (true, .frame d) => some d
    | _ => none

/-- C4: the emitted `audioinput` payloads are exactly the frames completed
while the streaming flag was true, positionally — frames completed while the
flag was false are dropped on the spot, never queued, and cannot be replayed
after the flag turns true again. -/
theorem C4_streaming_gate (init : Bool) (evs : List AudioEvent) :
    audioRun init evs = framesWhileStreaming init evs := by
  have hcons : ∀ (b : Bool) (e : AudioEvent) (rest : List AudioEvent),
      framesWhileStreaming b (e :: rest)
        = (audioStep b e).2 ++ framesWhileStreaming (audioStep b e).1 rest := by
    intro b e rest
    cases e <;> cases b <;>
      simp [framesWhileStreaming, streamingFlagTrace, audioStep]
  induction evs generalizing init with
  | nil => rfl
  | cons e rest ih =>
    rw [audioRun, ih (audioStep init e).1, hcons]

/-! ## Playback scheduling

`AudioManager.playAudio(pcmData)` schedules a decoded chunk against the
monotonic cursor `nextStartTime`:

```
const currentTime = this.audioContext.currentTime;
if (this.nextStartTime < currentTime) {
    this.nextStartTime = currentTime;
}
source.start(this.nextStartTime);
this.nextStartTime += buffer.duration;
```

The chunk holds `sampleCount` 16-bit samples and is played at 24000 Hz, so
`buffer.duration = sampleCount / 24000`.  Times are modelled as rationals. -/

/-- The scheduling step of `playAudio`: given the playback clock `currentTime`,
the cursor `nextStartTime` and the chunk's sample count, return the start time
passed to `source.start` and the updated cursor. -/
def playAudioSchedule (currentTime nextStartTime : ℚ) (sampleCount : Nat) : ℚ × ℚ :=
  let cursor := if nextStartTime < currentTime then currentTime else nextStartTime
  (cursor, cursor + sampleCount / 24000)

/-- C5: with the cursor initially equal to the playback clock and the clock not
advancing, three chunks of `n` samples are scheduled gaplessly and without
overlap at `0`, `d`, `2d` (`d = n/24000`); moreover on every call the chunk is
never scheduled before the current clock, the cursor never decreases, and a
cursor that lags the clock is first reset to the clock ("now"). -/
theorem C5_playback_scheduling (n : Nat) (currentTime nextStartTime : ℚ) :
    ((playAudioSchedule 0 0 n).1 = 0
      ∧ (playAudioSchedule 0 (playAudioSchedule 0 0 n).2 n).1 = (n : ℚ) / 24000
      ∧ (playAudioSchedule 0
          (playAudioSchedule 0 (playAudioSchedule 0 0 n).2 n).2 n).1
          = 2 * ((n : ℚ) / 24000))
    ∧ currentTime ≤ (playAudioSchedule currentTime nextStartTime n).1
    ∧ nextStartTime ≤ (playAudioSchedule currentTime nextStartTime n).2
    ∧ (playAudioSchedule currentTime nextStartTime n).1
        ≤ (playAudioSchedule currentTime nextStartTime n).2
    ∧ (nextStartTime < currentTime →
        (playAudioSchedule currentTime nextStartTime n).1 = currentTime) := by
  have hd : (0 : ℚ) ≤ (n : ℚ) / 24000 := by positivity
  have h1 : playAudioSchedule 0 0 n = (0, 0 + (n : ℚ) / 24000) := by
    simp [playAudioSchedule]
  have h2 : playAudioSchedule 0 ((n : ℚ) / 24000) n
      = ((n : ℚ) / 24000, (n : ℚ) / 24000 + (n : ℚ) / 24000) := by
    simp only [playAudioSchedule]
    rw [if_neg (not_lt.mpr hd)]
  have h3 : playAudioSchedule 0 ((n : ℚ) / 24000 + (n : ℚ) / 24000) n
      = ((n : ℚ) / 24000 + (n : ℚ) / 24000,
         (n : ℚ) / 24000 + (n : ℚ) / 24000 + (n : ℚ) / 24000) := by
    simp only [playAudioSchedule]
    rw [if_neg (not_lt.mpr (by linarith))]
  refine ⟨⟨?_, ?_, ?_⟩, ?_, ?_, ?_, ?_⟩
  · rw [h1]
  · rw [h1]
    simp only [zero_add]
    rw [h2]
  · rw [h1]
    simp only [zero_add]
    rw [h2]
    simp only
    rw [h3]
    simp only
    ring
  · simp only [playAudioSchedule]
    split <;> linarith
  · simp only [playAudioSchedule]
    split <;> linarith
  · simp only [playAudioSchedule]
    linarith
  · intro h
    simp only [playAudioSchedule]
    rw [if_pos h]

/-- Witness for C5 at a concrete input: 2048-sample chunks, clock 5, cursor 3
(cursor lags the clock, so the chunk starts at "now" = 5). -/
theorem C5_playback_scheduling_witness :
    ((3 : ℚ) < 5 → (playAudioSchedule 5 3 2048).1 = 5)
    ∧ (playAudioSchedule 0 0 2048).1 = 0 := by
  have h := C5_playback_scheduling 2048 5 3
  exact ⟨h.2.2.2.2, h.1.1⟩

/-! ## PCM conversion

Capture (`audio-processor.js`, `AudioProcessor.flush`):

```
const s = Math.max(-1, Math.min(1, this.buffer[i]));
pcmData[i] = s < 0 ? s * 0x8000 : s * 0x7FFF;
```

The assignment into the `Int16Array` truncates the scaled value toward zero.
Playback decode (`AudioManager.playAudio`): `float32[i] = int16[i] / 32768.0`.
Samples are modelled as rationals. -/

/-- Truncation toward zero, as the `Int16Array` element assignment applies to
the scaled sample values (all of which fit in 16 bits here). -/
def truncQ (q : ℚ) : ℤ := if q < 0 then -Int.floor (-q) else Int.floor q

/-- The capture conversion of one sample: clamp to `[-1, 1]`, scale negative
values by `0x8000 = 32768` and non-negative values by `0x7FFF = 32767`, and
truncate into a signed 16-bit integer. -/
def sampleToPcm (x : ℚ) : ℤ :=
  let s := max (-1) (min 1 x)
  if s < 0 then truncQ (s * 32768) else truncQ (s * 32767)

/-- The playback decode of one 16-bit value: `int16[i] / 32768.0`. -/
def pcmToSample (v : ℤ) : ℚ := (v : ℚ) / 32768

/-- C6 (amended: tolerance `2/32768` instead of `1/32768`): converting an
in-range sample to 16-bit PCM and back recovers it within `2/32768` absolute
error (negative samples within `1/32768`; non-negative samples can err by up to
just under `2/32768` because the encoder scales by 32767 while the decoder
divides by 32768); the PCM value fits in a signed 16-bit integer; and an
all-zero sample array produces all-zero PCM. -/
theorem C6_pcm_roundtrip (x : ℚ) (hx1 : -1 ≤ x) (hx2 : x ≤ 1) :
    |x - pcmToSample (sampleToPcm x)| < 2 / 32768
    ∧ (x < 0 → |x - pcmToSample (sampleToPcm x)| < 1 / 32768)
    ∧ -32768 ≤ sampleToPcm x ∧ sampleToPcm x ≤ 32767
    ∧ sampleToPcm 0 = 0
    ∧ (∀ l : List ℚ, (∀ y ∈ l, y = 0) → ∀ v ∈ l.map sampleToPcm, v = 0) := by
  have hzero : sampleToPcm 0 = 0 := by
    norm_num [sampleToPcm, truncQ]
  have hclamp : max (-1 : ℚ) (min 1 x) = x := by
    rw [min_eq_right hx2, max_eq_right hx1]
  have hmain : |x - pcmToSample (sampleToPcm x)| < 2 / 32768
      ∧ (x < 0 → |x - pcmToSample (sampleToPcm x)| < 1 / 32768)
      ∧ -32768 ≤ sampleToPcm x ∧ sampleToPcm x ≤ 32767 := by
    by_cases hneg : x < 0
    · -- negative sample: scaled by 32768, truncation toward zero rounds up,
      -- so the error stays within one decode step
      have hq : x * 32768 < 0 := mul_neg_of_neg_of_pos hneg (by norm_num)
      have hpcm : sampleToPcm x = -Int.floor (-(x * 32768)) := by
        rw [sampleToPcm]
        simp only [hclamp]
        rw [if_pos hneg, truncQ, if_pos hq]
      have hfl : (Int.floor (-(x * 32768)) : ℚ) ≤ -(x * 32768) := Int.floor_le _
      have hfu : -(x * 32768) < Int.floor (-(x * 32768)) + 1 := Int.lt_floor_add_one _
      have hfle : Int.floor (-(x * 32768)) ≤ 32768 := by
        have : (-(x * 32768) : ℚ) ≤ 32768 := by nlinarith
        calc Int.floor (-(x * 32768)) ≤ Int.floor (32768 : ℚ) := Int.floor_le_floor this
          _ = 32768 := by norm_num
      have hflnn : 0 ≤ Int.floor (-(x * 32768)) := Int.floor_nonneg.mpr (by linarith)
      have hbound : |x - pcmToSample (sampleToPcm x)| < 1 / 32768 := by
        rw [hpcm, pcmToSample]
        rw [abs_lt]
        push_cast
        constructor <;> nlinarith
      refine ⟨lt_trans hbound (by norm_num), fun _ => hbound, ?_, ?_⟩
      · rw [hpcm]; omega
      · rw [hpcm]; omega
    · -- non-negative sample: scaled by 32767
      have hnlt : ¬ x < 0 := hneg
      push_neg at hneg
      have hq : 0 ≤ x * 32767 := by nlinarith
      have hpcm : sampleToPcm x = Int.floor (x * 32767) := by
        rw [sampleToPcm]
        simp only [hclamp]
        rw [if_neg (not_lt.mpr hneg), truncQ, if_neg (not_lt.mpr hq)]
      have hfl : (Int.floor (x * 32767) : ℚ) ≤ x * 32767 := Int.floor_le _
      have hfu : x * 32767 < Int.floor (x * 32767) + 1 := Int.lt_floor_add_one _
      have hfle : Int.floor (x * 32767) ≤ 32767 := by
        have : (x * 32767 : ℚ) ≤ 32767 := by nlinarith
        calc Int.floor (x * 32767) ≤ Int.floor (32767 : ℚ) := Int.floor_le_floor this
          _ = 32767 := by norm_num
      have hflnn : 0 ≤ Int.floor (x * 32767) := Int.floor_nonneg.mpr hq
      refine ⟨?_, fun hlt => absurd hlt hnlt, by rw [hpcm]; omega, by rw [hpcm]; omega⟩
      rw [hpcm, pcmToSample]
      rw [abs_lt]
      constructor <;> nlinarith
  refine ⟨hmain.1, hmain.2.1, hmain.2.2.1, hmain.2.2.2, hzero, ?_⟩
  intro l hl v hv
  obtain ⟨y, hy, rfl⟩ := List.mem_map.mp hv
  rw [hl y hy, hzero]

/-- C6 counterexample: at sample `2/3` the round-trip error is `1/24576`, which
exceeds the claimed `1/32768` tolerance (the encoder scales non-negative
samples by 32767 but the decoder divides by 32768). -/
theorem C6_tolerance_counterexample :
    (-1 : ℚ) ≤ 2 / 3 ∧ (2 / 3 : ℚ) ≤ 1
    ∧ ¬ |(2 / 3 : ℚ) - pcmToSample (sampleToPcm (2 / 3))| ≤ 1 / 32768 := by
  have hs : sampleToPcm (2 / 3) = 21844 := by
    have hfloor : Int.floor ((2 / 3 : ℚ) * 32767) = 21844 := by
      rw [Int.floor_eq_iff]
      norm_num
    rw [sampleToPcm]
    norm_num [truncQ, hfloor]
  refine ⟨by norm_num, by norm_num, ?_⟩
  rw [hs]
  rw [show |(2 / 3 : ℚ) - pcmToSample 21844| = 1 / 24576 by
    rw [pcmToSample]
    rw [abs_of_pos (by norm_num)]
    norm_num]
  norm_num

/-- Witness for C6 at concrete inputs: the uniform bound at sample `1/2` and
the tighter negative-sample bound at sample `-1/2`. -/
theorem C6_pcm_roundtrip_witness :
    (-1 : ℚ) ≤ 1 / 2 ∧ (1 / 2 : ℚ) ≤ 1
    ∧ |(1 / 2 : ℚ) - pcmToSample (sampleToPcm (1 / 2))| < 2 / 32768
    ∧ (-1 / 2 : ℚ) < 0
    ∧ |(-1 / 2 : ℚ) - pcmToSample (sampleToPcm (-1 / 2))| < 1 / 32768 := by
  refine ⟨by norm_num, by norm_num, ?_, by norm_num, ?_⟩
  · exact (C6_pcm_roundtrip (1 / 2) (by norm_num) (by norm_num)).1
  · exact (C6_pcm_roundtrip (-1 / 2) (by norm_num) (by norm_num)).2.1 (by norm_num)

/-! ## The recording-mode coordinator

`handleButtonPress(keyIndex, isDown)` of the application layer (the revision
with turn-boundary signaling).  Key 0 is push-to-talk; key 1 toggles the open
mic.  On PTT release / toggle-off it stops streaming and — only when the
session client is connected — calls `geminiClient.sendSilence()`:

```
} else {
    this.audioManager.stopStreaming();
    if (this.state.geminiConnected) {
        this.geminiClient.sendSilence();
    }
}
```

The app/audio state is the flags of `this.state` plus the audio manager's
`isStreaming` flag (which `startStreaming`/`stopStreaming` set synchronously).
Icon, log and visualizer updates are omitted. -/
structure AppState where
  connected : Bool
  geminiConnected : Bool
  isPTTActive : Bool
  isToggleActive : Bool
  isStreaming : Bool
  deriving DecidableEq

/-- The externally visible calls `handleButtonPress` makes on the audio manager
and the session client. -/
inductive AppEffect where
  | startStreaming
  | stopStreaming
  | cancelSilence
  | sendSilence
  deriving DecidableEq

/-- `handleButtonPress` of the application layer: returns the updated state and
the calls made, in order. -/
def handleButtonPress (s : AppState) (keyIndex : Nat) (isDown : Bool) :
    AppState × List AppEffect :=
  if s.connected = false then (s, [])
  else if keyIndex = 0 then
    -- Key 0: Push-to-Talk (state.isPTTActive = isDown)
    if isDown then
      ({ s with isPTTActive := true, isStreaming := true },
       [AppEffect.cancelSilence, AppEffect.startStreaming])
    else
      ({ s with isPTTActive := false, isStreaming := false },
       AppEffect.stopStreaming ::
         (if s.geminiConnected then [AppEffect.sendSilence] else []))
  else if keyIndex = 1 ∧ isDown then
    -- Key 1: Toggle Mic (state.isToggleActive = !state.isToggleActive)
    if s.isToggleActive = false then
      ({ s with isToggleActive := true, isStreaming := true },
       [AppEffect.cancelSilence, AppEffect.startStreaming])
    else
      ({ s with isToggleActive := false, isStreaming := false },
       AppEffect.stopStreaming ::
         (if s.geminiConnected then [AppEffect.sendSilence] else []))
  else (s, [])

/-- The messages the session client can send for turn signaling. -/
inductive SessionMsg where
  | turnBoundary
  deriving DecidableEq

/-- Modelled from the spec: `GeminiClient.sendSilence` — called by
`handleButtonPress` but its implementation is not under src/.  Per the spec it
"sends an explicit no-more-input-for-now signal so the remote side's
voice-activity/turn logic can finalize a response; this does not close the
connection": it emits the turn-boundary message and leaves the connection
state unchanged. -/
def sendSilenceClient (isOpen : Bool) : Bool × List SessionMsg :=
  (isOpen, [SessionMsg.turnBoundary])

/-- C7 (amended: the turn-boundary signal is sent only when the session client
is connected): leaving PTT on key-0 release, or leaving toggle mode on key-1
press, stops audio streaming; when `state.geminiConnected` it additionally
sends the turn-boundary signal, which does not close the connection; when the
session is not connected, no signal is sent. -/
theorem C7_turn_boundary (s : AppState) (hconn : s.connected = true) :
    (s.isPTTActive = true →
      (handleButtonPress s 0 false).1.isPTTActive = false
      ∧ (handleButtonPress s 0 false).1.isStreaming = false
      ∧ AppEffect.stopStreaming ∈ (handleButtonPress s 0 false).2
      ∧ (s.geminiConnected = true →
          AppEffect.sendSilence ∈ (handleButtonPress s 0 false).2)
      ∧ (s.geminiConnected = false →
          AppEffect.sendSilence ∉ (handleButtonPress s 0 false).2))
    ∧ (s.isToggleActive = true →
        (handleButtonPress s 1 true).1.isToggleActive = false
        ∧ (handleButtonPress s 1 true).1.isStreaming = false
        ∧ AppEffect.stopStreaming ∈ (handleButtonPress s 1 true).2
        ∧ (s.geminiConnected = true →
            AppEffect.sendSilence ∈ (handleButtonPress s 1 true).2)
        ∧ (s.geminiConnected = false →
            AppEffect.sendSilence ∉ (handleButtonPress s 1 true).2))
    ∧ (∀ b : Bool, (sendSilenceClient b).1 = b) := by
  rcases s with ⟨c, g, p, t, str⟩
  have hc : c = true := hconn
  subst hc
  refine ⟨?_, ?_, fun b => rfl⟩ <;>
    cases g <;> cases p <;> cases t <;> cases str <;> decide

/-- C7 counterexample: with the device connected, PTT active and the session
client not connected, releasing key 0 leaves PTT mode and stops streaming but
sends no turn-boundary signal — the claim's unconditional "sends an explicit
turn-boundary signal" fails. -/
theorem C7_no_signal_counterexample :
    (⟨true, false, true, false, true⟩ : AppState).isPTTActive = true
    ∧ (handleButtonPress ⟨true, false, true, false, true⟩ 0 false).1.isPTTActive = false
    ∧ AppEffect.stopStreaming
        ∈ (handleButtonPress ⟨true, false, true, false, true⟩ 0 false).2
    ∧ AppEffect.sendSilence
        ∉ (handleButtonPress ⟨true, false, true, false, true⟩ 0 false).2 := by
  decide

/-- Witness for C7 at a concrete state: device connected, session connected,
PTT active; releasing key 0 emits the turn-boundary call. -/
theorem C7_turn_boundary_witness :
    (⟨true, true, true, false, true⟩ : AppState).connected = true
    ∧ AppEffect.sendSilence
        ∈ (handleButtonPress ⟨true, true, true, false, true⟩ 0 false).2 := by
  refine ⟨rfl, ?_⟩
  exact ((C7_turn_boundary ⟨true, true, true, false, true⟩ rfl).1 rfl).2.2.2.1 rfl

/-! ## The session `close` listener

`setupUI` registers:

```
this.geminiClient.addEventListener('close', () => {
    this.log('Disconnected from Gemini');
    this.state.geminiConnected = false;
    ...button label/css updates...
});
```

It does not call `audioManager.stopStreaming()` and does not touch
`isPTTActive` / `isToggleActive`.  (No handler for a device disconnect event is
registered at all.) -/
def handleGeminiClose (s : AppState) : AppState :=
  { s with geminiConnected := false }

/-- C8 (amended): a session disconnect only clears the session-connected flag;
the recording mode (`isPTTActive` / `isToggleActive`) and the streaming flag
are left unchanged — the app does not transition to Idle and does not
force-stop streaming (and it registers no device-disconnect handler at all). -/
theorem C8_close_listener_behavior (s : AppState) :
    (handleGeminiClose s).geminiConnected = false
    ∧ (handleGeminiClose s).isStreaming = s.isStreaming
    ∧ (handleGeminiClose s).isPTTActive = s.isPTTActive
    ∧ (handleGeminiClose s).isToggleActive = s.isToggleActive
    ∧ (handleGeminiClose s).connected = s.connected := by
  rcases s with ⟨c, g, p, t, str⟩
  exact ⟨rfl, rfl, rfl, rfl, rfl⟩

/-- C8 counterexample: in toggle mode with streaming on, a session disconnect
leaves the mode ToggleActive and the streaming flag true, refuting "transitions
the recording mode to Idle and force-stops audio streaming". -/
theorem C8_no_force_stop_counterexample :
    (handleGeminiClose ⟨true, true, false, true, true⟩).isToggleActive = true
    ∧ (handleGeminiClose ⟨true, true, false, true, true⟩).isStreaming = true := by
  decide

/-! ## The connection guard of the StreamDeckV2 driver

`#readyOrThrow()` throws `Error('Not connected.')` (name `'StreamDeck'`) when
the device is not open; `setBrightness`, `getSerialNumber`,
`getFirmwareVersion`, `fillBuffer`/`fillColor`/`fillURL`/`fillCanvas`,
`clearButton` and `clearAllButtons` all call it first.  `reset()` instead
checks `if (!this.#device?.opened) return;` and silently does nothing when not
connected ("Don't throw if just resetting on close").  Each operation is
modelled as a function of the `device.opened` flag returning `Except` of the
wire payload it would send/request. -/

inductive DriverError where
  | notConnected
  deriving DecidableEq

/-- `#readyOrThrow`. -/
def readyOrThrow (opened : Bool) : Except DriverError Unit :=
  if opened then Except.ok () else Except.error DriverError.notConnected

/-- `fillBuffer(buttonId, buffer)`: `#readyOrThrow()`, then `#sendBuffer`
packetizes the image and queues the packets. -/
def fillBuffer (opened : Bool) (buttonId : Nat) (buffer : List Nat) :
    Except DriverError (List ImagePacket) :=
  match readyOrThrow opened with
  | Except.error e => Except.error e
  | Except.ok _ => Except.ok (generateImagePackets MAX_PAYLOAD_LENGTH buttonId buffer)

/-- `setBrightness(percentage)`: `#readyOrThrow()`, clamp to `[0, 100]`, send
feature report 0x03 with payload `[0x08, value]`. -/
def setBrightness (opened : Bool) (percentage : Int) : Except DriverError (List Int) :=
  match readyOrThrow opened with
  | Except.error e => Except.error e
  | Except.ok _ => Except.ok [0x08, max 0 (min 100 percentage)]

/-- `getSerialNumber()`: `#readyOrThrow()`, then `receiveFeatureReport(6, 32)`
(the request is the modelled result; text decoding is out of scope). -/
def getSerialNumber (opened : Bool) : Except DriverError (Nat × Nat) :=
  match readyOrThrow opened with
  | Except.error e => Except.error e
  | Except.ok _ => Except.ok (6, 32)

/-- `getFirmwareVersion()`: `#readyOrThrow()`, then `receiveFeatureReport(5, 32)`. -/
def getFirmwareVersion (opened : Bool) : Except DriverError (Nat × Nat) :=
  match readyOrThrow opened with
  | Except.error e => Except.error e
  | Except.ok _ => Except.ok (5, 32)

/-- `reset()`: `if (!this.#device?.opened) return;` then feature report 0x03
with payload `[0x02]`.  The result is the list of feature-report payloads
actually sent. -/
def reset (opened : Bool) : Except DriverError (List (List Nat)) :=
  if opened = false then Except.ok []
  else Except.ok [[0x02]]

/-- C9 (amended: every listed operation except `reset()` fails with the
not-connected error): when invoked before a successful `connect()` or after a
disconnect, image transfer, `setBrightness`, serial-number and firmware queries
all fail with `NotConnectedError`; `reset()` however silently no-ops, sending
nothing and raising nothing. -/
theorem C9_not_connected_guard (buttonId : Nat) (buffer : List Nat) (pct : Int) :
    fillBuffer false buttonId buffer = Except.error DriverError.notConnected
    ∧ setBrightness false pct = Except.error DriverError.notConnected
    ∧ getSerialNumber false = Except.error DriverError.notConnected
    ∧ getFirmwareVersion false = Except.error DriverError.notConnected
    ∧ reset false = Except.ok [] := by
  exact ⟨rfl, rfl, rfl, rfl, rfl⟩

/-- C9 counterexample: `reset()` invoked while not connected does not raise
`NotConnectedError` — it silently returns having sent nothing, refuting the
claim for the `reset` operation. -/
theorem C9_reset_counterexample :
    ¬ reset false = Except.error DriverError.notConnected := by
  simp [reset]

/-! ## The two input-report decoders

`StreamDeckV2.#onButtonPushed(buffer)` decodes the same reports as
`StreamDeckManager.handleInputReport`, but reads the raw `ArrayBuffer` as a
signed `Int8Array` and slices from `OFFSET - 1 = 3`:

```
const keys = new Int8Array(buffer);
const start = this.OFFSET - 1;
const end = this.NUM_KEYS + this.OFFSET - 1;
const data = Array.from(keys).slice(start, end);
data.forEach((item, keyIndex) => { ... item === 1 ... });
```

whereas the manager reads `data.getUint8(this.OFFSET + i)` — one byte later in
the same buffer. -/

/-- Signed reinterpretation of a byte, as `new Int8Array(buffer)` performs. -/
def int8OfByte (b : Nat) : Int :=
  if b % 256 < 128 then (b % 256 : Int) else (b % 256 : Int) - 256

/-- The `data.forEach((item, keyIndex) => ...)` loop of `#onButtonPushed`,
with the running element index and the threaded `#keyState`. -/
def onButtonPushedGo : List Int → Nat → List Bool → List Bool × List KeyEdgeEvent
  | [], _, st => (st, [])
  | item :: rest, idx, st =>
    if (item == 1) = st.getD idx false then
      onButtonPushedGo rest (idx + 1) st
    else
      let r := onButtonPushedGo rest (idx + 1) (st.set idx (item == 1))
      (r.1, ⟨idx, item == 1⟩ :: r.2)

/-- `StreamDeckV2.#onButtonPushed(buffer)`: returns the updated `#keyState` and
the dispatched events (`buttonId = keyIndex + ID_OFFSET` with `ID_OFFSET = 0`,
`pushed = (item === 1)`). -/
def onButtonPushed (st : List Bool) (buffer : List Nat) :
    List Bool × List KeyEdgeEvent :=
  onButtonPushedGo (((buffer.map int8OfByte).drop (OFFSET - 1)).take NUM_KEYS) 0 st

lemma filterMap_range_succ (n : Nat) (f : Nat → Option KeyEdgeEvent) :
    (List.range (n + 1)).filterMap f
      = (f 0).toList ++ (List.range n).filterMap (fun j => f (j + 1)) := by
  rw [List.range_succ_eq_map, List.filterMap_cons, List.filterMap_map]
  cases h : f 0 <;> simp [h, Function.comp_def]

/-- Characterization of the `#onButtonPushed` forEach loop: the events are the
changed element positions (offset by the running index), computed against the
state at entry. -/
lemma onButtonPushedGo_events :
    ∀ (items : List Int) (idx : Nat) (st : List Bool),
      (∀ j, j < items.length → idx + j < st.length) →
      (onButtonPushedGo items idx st).2
        = (List.range items.length).filterMap (fun j =>
            if (items.getD j 0 == 1) = st.getD (idx + j) false then none
            else some ⟨idx + j, items.getD j 0 == 1⟩) := by
  intro items
  induction items with
  | nil => intro idx st _; rfl
  | cons item rest ih =>
    intro idx st hlen
    have hlen' : ∀ j, j < rest.length → (idx + 1) + j < st.length := by
      intro j hj
      have := hlen (j + 1) (by simpa using Nat.succ_lt_succ hj)
      omega
    rw [show (item :: rest).length = rest.length + 1 from rfl, filterMap_range_succ]
    by_cases hch : (item == 1) = st.getD idx false
    · have hunfold : onButtonPushedGo (item :: rest) idx st
          = onButtonPushedGo rest (idx + 1) st := by
        simp only [onButtonPushedGo]
        rw [if_pos]
        simpa using hch
      rw [hunfold, ih (idx + 1) st hlen']
      have h0 : (if (((item :: rest).getD 0 0) == 1) = st.getD (idx + 0) false then none
          else some (⟨idx + 0, ((item :: rest).getD 0 0) == 1⟩ : KeyEdgeEvent)) = none := by
        simp only [List.getD_cons_zero, Nat.add_zero]
        rw [if_pos hch]
      rw [h0]
      simp only [Option.toList_none, List.nil_append]
      refine filterMap_ext _ _ _ ?_
      intro j _
      simp only [List.getD_cons_succ]
      have harith : idx + (j + 1) = idx + 1 + j := by omega
      rw [harith]
    · have hunfold : onButtonPushedGo (item :: rest) idx st
          = ((onButtonPushedGo rest (idx + 1) (st.set idx (item == 1))).1,
             ⟨idx, item == 1⟩ ::
               (onButtonPushedGo rest (idx + 1) (st.set idx (item == 1))).2) := by
        simp only [onButtonPushedGo]
        rw [if_neg]
        simpa using hch
      have hlen'' : ∀ j, j < rest.length →
          (idx + 1) + j < (st.set idx (item == 1)).length := by
        intro j hj
        rw [List.length_set]
        exact hlen' j hj
      rw [hunfold]
      have h0 : (if (((item :: rest).getD 0 0) == 1) = st.getD (idx + 0) false then none
          else some (⟨idx + 0, ((item :: rest).getD 0 0) == 1⟩ : KeyEdgeEvent))
            = some ⟨idx, item == 1⟩ := by
        simp only [List.getD_cons_zero, Nat.add_zero]
        rw [if_neg hch]
      rw [h0]
      simp only [Option.toList_some, List.singleton_append]
      refine congrArg (List.cons _) ?_
      rw [ih (idx + 1) (st.set idx (item == 1)) hlen'']
      refine filterMap_ext _ _ _ ?_
      intro j _
      simp only [List.getD_cons_succ]
      have harith : idx + (j + 1) = idx + 1 + j := by omega
      rw [harith, getD_set_ne st idx (idx + 1 + j) _ (by omega)]

/-- The signed byte reads as `1` exactly when the unsigned byte is `1`. -/
lemma int8_beq_one (b : Nat) (hb : b < 256) : (int8OfByte b == 1) = (b == 1) := by
  rw [Bool.eq_iff_iff, beq_iff_eq, beq_iff_eq]
  unfold int8OfByte
  rw [Nat.mod_eq_of_lt hb]
  by_cases h : b < 128
  · rw [if_pos h]
    constructor <;> intro h1 <;> omega
  · rw [if_neg h]
    constructor <;> intro h1 <;> omega

/-- C10 (amended: the two decoders read the key status at different byte
offsets of the same buffer — `handleInputReport` at `OFFSET + i = 4 + i`,
`#onButtonPushed` at `OFFSET - 1 + i = 3 + i` — so they agree exactly when
`#onButtonPushed` is fed the buffer with one extra leading byte consumed,
i.e. on `B.drop 1`): for every report `B` of at least `OFFSET + NUM_KEYS`
bytes and every identical prior key state, `#onButtonPushed` on `B.drop 1`
emits the same event sequence (same indices, same pressed values, same order)
as `handleInputReport` on `B`. -/
theorem C10_decoders_agree_modulo_offset (st : List Bool) (B : List Nat)
    (hst : st.length = NUM_KEYS) (hbytes : ∀ b ∈ B, b < 256)
    (hlen : OFFSET + NUM_KEYS ≤ B.length) :
    (onButtonPushed st (B.drop 1)).2 = (handleInputReport st B).2 := by
  have hitems_len : (((( B.drop 1).map int8OfByte).drop (OFFSET - 1)).take NUM_KEYS).length
      = NUM_KEYS := by
    simp only [List.length_take, List.length_drop, List.length_map]
    rw [NUM_KEYS, OFFSET] at *
    omega
  have hitem : ∀ j, j < NUM_KEYS →
      ((((B.drop 1).map int8OfByte).drop (OFFSET - 1)).take NUM_KEYS).getD j 0
        = int8OfByte (B.getD (OFFSET + j) 0) := by
    intro j hj
    have hBj : OFFSET + j < B.length := by
      rw [NUM_KEYS, OFFSET] at *
      omega
    rw [List.getD_eq_getElem?_getD, List.getElem?_take_of_lt hj, List.getElem?_drop,
      List.getElem?_map, List.getElem?_drop]
    have hidx : 1 + (OFFSET - 1 + j) = OFFSET + j := by
      rw [OFFSET]
      omega
    rw [hidx, List.getElem?_eq_getElem hBj]
    rw [List.getD_eq_getElem?_getD, List.getElem?_eq_getElem hBj]
    rfl
  have hguard : ¬ B.length < OFFSET + NUM_KEYS := Nat.not_lt_of_le hlen
  have hltm : ∀ i ∈ List.range NUM_KEYS, i < st.length := by
    intro i hi
    rw [hst]
    exact List.mem_range.mp hi
  obtain ⟨hev, -, -⟩ :=
    handleKeysGo_spec B (List.range NUM_KEYS) st (List.nodup_range _) hltm
  have hman : (handleInputReport st B).2
      = (List.range NUM_KEYS).filterMap (fun i =>
          if decodeKey B i = st.getD i false then none
          else some ⟨i, decodeKey B i⟩) := by
    rw [handleInputReport, if_neg hguard, hev]
  have hv2len : ∀ j, j < ((((B.drop 1).map int8OfByte).drop (OFFSET - 1)).take
      NUM_KEYS).length → 0 + j < st.length := by
    intro j hj
    rw [hitems_len] at hj
    rw [hst]
    omega
  have hv2 := onButtonPushedGo_events
    ((((B.drop 1).map int8OfByte).drop (OFFSET - 1)).take NUM_KEYS) 0 st hv2len
  rw [onButtonPushed, hv2, hitems_len, hman]
  refine filterMap_ext _ _ _ ?_
  intro j hj
  have hjN : j < NUM_KEYS := List.mem_range.mp hj
  have hBj : OFFSET + j < B.length := by
    rw [NUM_KEYS] at hjN
    rw [NUM_KEYS, OFFSET] at *
    omega
  have hbmem : B.getD (OFFSET + j) 0 ∈ B := by
    rw [List.getD_eq_getElem?_getD, List.getElem?_eq_getElem hBj]
    exact List.getElem_mem _
  have hbeq : ((((( B.drop 1).map int8OfByte).drop (OFFSET - 1)).take NUM_KEYS).getD j 0 == 1)
      = decodeKey B j := by
    rw [hitem j hjN, int8_beq_one _ (hbytes _ hbmem), decodeKey]
  rw [hbeq, Nat.zero_add]

/-- C10 counterexample: on the same 19-byte buffer with byte 3 set, the V2
decoder reports key 0 pressed while the manager reports nothing — fed the very
same buffer and state, the two decoders emit different event sequences. -/
theorem C10_offset_mismatch_counterexample :
    (onButtonPushed (List.replicate 15 false)
        [0, 0, 0, 1, 0, 0, 0, 0, 0, 0, 0, 0, 0, 0, 0, 0, 0, 0, 0]).2
      ≠ (handleInputReport (List.replicate 15 false)
        [0, 0, 0, 1, 0, 0, 0, 0, 0, 0, 0, 0, 0, 0, 0, 0, 0, 0, 0]).2 := by
  decide

/-- Witness for C10 at a concrete input: a 20-byte raw report whose first byte
is the report id; both decoders see keys 1 and 3 pressed. -/
theorem C10_decoders_agree_witness :
    (List.replicate 15 false).length = NUM_KEYS
    ∧ (∀ b ∈ ([9, 0, 0, 0, 0, 1, 0, 1, 0, 0, 0, 0, 0, 0, 0, 0, 0, 0, 0, 0] : List Nat),
        b < 256)
    ∧ OFFSET + NUM_KEYS
        ≤ ([9, 0, 0, 0, 0, 1, 0, 1, 0, 0, 0, 0, 0, 0, 0, 0, 0, 0, 0, 0] : List Nat).length
    ∧ (onButtonPushed (List.replicate 15 false)
          (([9, 0, 0, 0, 0, 1, 0, 1, 0, 0, 0, 0, 0, 0, 0, 0, 0, 0, 0, 0] : List Nat).drop 1)).2
        = (handleInputReport (List.replicate 15 false)
          [9, 0, 0, 0, 0, 1, 0, 1, 0, 0, 0, 0, 0, 0, 0, 0, 0, 0, 0, 0]).2 := by
  refine ⟨by decide, by decide, by decide, ?_⟩
  exact C10_decoders_agree_modulo_offset (List.replicate 15 false)
    [9, 0, 0, 0, 0, 1, 0, 1, 0, 0, 0, 0, 0, 0, 0, 0, 0, 0, 0, 0]
    (by decide) (by decide) (by decide)

end StreamDeckGemini
